import Mathlib

/-!
Verification of the virtual-memory subsystem of lambdaOS against its
natural-language specification.

The definitions below are a shallow embedding of the Rust sources:

* `src/arch/x86_64/memory/area_frame_allocator.rs` — `AreaFrameAllocator`
  (`new`, `choose_next_area`, `allocate_frame`);
* `src/arch/x86_64/memory/paging/mod.rs` — `Page::containing_address`,
  `InactivePageTable::new`, `ActivePageTable::with`;
* `src/arch/x86_64/memory/paging/table.rs` — `Table::zero`,
  `Table::next_table_create`.

Machine integers (`usize`, `u64`) are modelled as `Nat`; all the quantities
involved stay far below `2^64`, and where the distinction could matter
(`Page::containing_address`) an explicit `< 2^64` bound appears in the
statement. Rust panics and `Option` misses are modelled as `Option` results.
`allocate_frame` is self-recursive in the source with no termination
guarantee, so it is embedded with an explicit fuel parameter: an outer `none`
means the recursion did not finish within the given fuel, while
`some (none, s)` is the source's honest `None` ("out of memory") return.
-/

set_option autoImplicit false

namespace LambdaOS

/-- Size in bytes of a physical frame / virtual page. The constant lives in
the unlisted `arch::memory` module; the spec fixes it at 4096 bytes. -/
def PAGE_SIZE : Nat := 4096

/-- Physical frame, identified by its index (`arch::memory::Frame`). -/
structure Frame where
  number : Nat
deriving DecidableEq, Repr

/-- Modelled from the spec: `Frame::containing_address` lives in the unlisted
`arch::memory` module; the spec's data model says a frame is
"physical-address / 4096". -/
def Frame.containing_address (address : Nat) : Frame :=
  ⟨address / PAGE_SIZE⟩

/-- Multiboot memory area: base address and length in bytes
(`multiboot2::MemoryArea`). -/
structure MemoryArea where
  base_addr : Nat
  length : Nat
deriving DecidableEq, Repr

/-- State of `AreaFrameAllocator` (area_frame_allocator.rs, lines 9-17).
The `areas` iterator is modelled as the list of memory areas it ranges
over (the Rust iterator is `clone`d before each traversal, so it is never
consumed). -/
structure AreaFrameAllocator where
  next_free_frame : Frame
  current_area : Option MemoryArea
  areas : List MemoryArea
  kernel_start : Frame
  kernel_end : Frame
  multiboot_start : Frame
  multiboot_end : Frame
deriving DecidableEq, Repr

/-- Rust's `Iterator::min_by_key` on `base_addr`: the minimum is kept,
and among equal minima the LAST one encountered wins (as documented for
`Iterator::min_by`). -/
def minByBaseAddr (l : List MemoryArea) : Option MemoryArea :=
  l.foldl
    (fun acc a =>
      match acc with
      | none => some a
      | some b => if a.base_addr ≤ b.base_addr then some a else some b)
    none

/-- `AreaFrameAllocator::choose_next_area` (lines 41-56): pick, among the
areas whose last frame is at or past `next_free_frame`, the one with the
smallest base address; then raise `next_free_frame` to that area's first
frame if it lies below it. -/
def chooseNextArea (s : AreaFrameAllocator) : AreaFrameAllocator :=
  match minByBaseAddr (s.areas.filter fun area =>
      s.next_free_frame.number ≤
        (Frame.containing_address (area.base_addr + area.length - 1)).number) with
  | none => { s with current_area := none }
  | some area =>
      if s.next_free_frame.number <
          (Frame.containing_address area.base_addr).number then
        { s with current_area := some area
                 next_free_frame := Frame.containing_address area.base_addr }
      else { s with current_area := some area }

/-- `AreaFrameAllocator::new` (lines 20-38). -/
def AreaFrameAllocator.new (kernel_start kernel_end multiboot_start
    multiboot_end : Nat) (memory_areas : List MemoryArea) :
    AreaFrameAllocator :=
  chooseNextArea
    { next_free_frame := Frame.containing_address 0
      current_area := none
      areas := memory_areas
      kernel_start := Frame.containing_address kernel_start
      kernel_end := Frame.containing_address kernel_end
      multiboot_start := Frame.containing_address multiboot_start
      multiboot_end := Frame.containing_address multiboot_end }

/-- `AreaFrameAllocator::allocate_frame` (lines 61-108), with explicit fuel
for the source's unbounded self-recursion. `none` = the recursion did not
terminate within `fuel` steps; `some (none, s)` = the source returns `None`
(out of memory); `some (some f, s)` = the source returns `Some f`.
The branch conditions are transcribed literally, including the asymmetry
between the kernel-range test (line 84-85) and the multiboot-range test
(line 91-92). On success the source increments `next_free_frame` by 1
(line 100) regardless of `count`. -/
def allocateFrame : Nat → AreaFrameAllocator → Nat →
    Option (Option Frame × AreaFrameAllocator)
  | 0, _, _ => none
  | fuel + 1, s, count =>
    if count = 0 then
      some (none, s)
    else
      match s.current_area with
      | none => some (none, s)
      | some area =>
        let start_frame : Frame := ⟨s.next_free_frame.number⟩
        let end_frame : Frame := ⟨s.next_free_frame.number + (count - 1)⟩
        let current_area_last_frame :=
          Frame.containing_address (area.base_addr + area.length - 1)
        if current_area_last_frame.number < end_frame.number then
          allocateFrame fuel (chooseNextArea s) count
        else if (s.kernel_start.number ≤ start_frame.number ∧
                   start_frame.number ≤ s.kernel_end.number) ∨
                (s.kernel_start.number ≤ end_frame.number ∧
                   start_frame.number ≤ s.kernel_end.number) then
          allocateFrame fuel
            { s with next_free_frame := ⟨s.kernel_end.number + 1⟩ } count
        else if (s.multiboot_start.number ≤ start_frame.number ∧
                   start_frame.number ≤ s.multiboot_end.number) ∨
                (s.multiboot_start.number ≤ end_frame.number ∧
                   end_frame.number ≤ s.multiboot_end.number) then
          allocateFrame fuel
            { s with next_free_frame := ⟨s.multiboot_end.number + 1⟩ } count
        else
          some (some start_frame,
            { s with next_free_frame := ⟨s.next_free_frame.number + 1⟩ })

/-- Allocator over one area holding frames 0-15, with the kernel on frames
8-9 and the multiboot structure on frames 10-11. -/
def allocOneArea : AreaFrameAllocator :=
  AreaFrameAllocator.new 0x8000 0x9fff 0xa000 0xbfff [⟨0, 0x10000⟩]

/-- Allocator over one area holding only frame 0 (kernel and multiboot
ranges lie entirely outside the area, on frames 8-9 and 10-11). -/
def allocTinyArea : AreaFrameAllocator :=
  AreaFrameAllocator.new 0x8000 0x9fff 0xa000 0xbfff [⟨0, 0x1000⟩]

/-- Allocator over one area holding frames 0-99, with the kernel on frames
90-95 and the multiboot structure on frame 5 only. -/
def allocMbArea : AreaFrameAllocator :=
  AreaFrameAllocator.new 0x5a000 0x5ffff 0x5000 0x5fff [⟨0, 409600⟩]

/-- `choose_next_area` never lowers the candidate frame: it only raises it
to the chosen area's first frame when the candidate lies below it. -/
theorem chooseNextArea_next_mono (s : AreaFrameAllocator) :
    s.next_free_frame.number ≤ (chooseNextArea s).next_free_frame.number := by
  unfold chooseNextArea
  split
  · exact le_refl _
  · split
    · next h => exact Nat.le_of_lt h
    · exact le_refl _

/-- Per-call monotonicity of `allocate_frame`: whenever a call finishes
(with result `r` and final state `t`), the candidate frame has not
decreased, and a successful result lies between the initial candidate and
the final one. -/
theorem allocateFrame_mono :
    ∀ (fuel : Nat) (s : AreaFrameAllocator) (count : Nat)
      (r : Option Frame) (t : AreaFrameAllocator),
      allocateFrame fuel s count = some (r, t) →
      s.next_free_frame.number ≤ t.next_free_frame.number ∧
      (∀ f, r = some f →
        s.next_free_frame.number ≤ f.number ∧
        f.number < t.next_free_frame.number) := by
  intro fuel
  induction fuel with
  | zero => intro s count r t h; exact absurd h (by simp [allocateFrame])
  | succ n ih =>
      intro s count r t h
      rw [allocateFrame] at h
      by_cases hc : count = 0
      · rw [if_pos hc] at h
        simp only [Option.some.injEq, Prod.mk.injEq] at h
        obtain ⟨hr, ht⟩ := h
        refine ⟨by rw [← ht], ?_⟩
        intro f hf; rw [← hr] at hf; exact absurd hf (by simp)
      · rw [if_neg hc] at h
        cases harea : s.current_area with
        | none =>
            rw [harea] at h
            simp only [Option.some.injEq, Prod.mk.injEq] at h
            obtain ⟨hr, ht⟩ := h
            refine ⟨by rw [← ht], ?_⟩
            intro f hf; rw [← hr] at hf; exact absurd hf (by simp)
        | some area =>
            rw [harea] at h
            dsimp only at h
            split at h
            · -- area switch
              have h1 := ih _ _ _ _ h
              exact ⟨le_trans (chooseNextArea_next_mono s) h1.1,
                fun f hf => ⟨le_trans (chooseNextArea_next_mono s)
                  (h1.2 f hf).1, (h1.2 f hf).2⟩⟩
            · split at h
              · -- kernel-range jump
                next hker =>
                have h1 := ih _ _ _ _ h
                have hle : s.next_free_frame.number ≤ s.kernel_end.number + 1 := by
                  rcases hker with ⟨_, h2⟩ | ⟨_, h2⟩ <;> omega
                exact ⟨le_trans hle h1.1,
                  fun f hf => ⟨le_trans hle (h1.2 f hf).1, (h1.2 f hf).2⟩⟩
              · split at h
                · -- multiboot-range jump
                  next hmb =>
                  have h1 := ih _ _ _ _ h
                  have hle : s.next_free_frame.number ≤
                      s.multiboot_end.number + 1 := by
                    rcases hmb with ⟨h2, h3⟩ | ⟨h2, h3⟩ <;> omega
                  exact ⟨le_trans hle h1.1,
                    fun f hf => ⟨le_trans hle (h1.2 f hf).1, (h1.2 f hf).2⟩⟩
                · -- success
                  simp only [Option.some.injEq, Prod.mk.injEq] at h
                  obtain ⟨hr, ht⟩ := h
                  refine ⟨?_, ?_⟩
                  · rw [← ht]; exact Nat.le_succ _
                  · intro f hf
                    rw [← hr] at hf
                    simp only [Option.some.injEq] at hf
                    rw [← hf, ← ht]
                    exact ⟨le_refl _, Nat.lt_succ_self _⟩

end LambdaOS

namespace LambdaOS

/-- C10: for every allocator state, `allocate_frame(0)` returns `None`
without changing any allocator state, even when free frames are available. -/
theorem allocateFrame_zero_count_none (fuel : Nat) (s : AreaFrameAllocator) :
    allocateFrame (fuel + 1) s 0 = some (none, s) := by
  simp [allocateFrame]

/-- C1 (evaluation at the failing input): starting from `allocOneArea`
(frames 0-15 free from frame 0 on), two successive `allocate_frame(2)`
calls succeed with start frames 0 and 1, so the two runs {0,1} and {1,2}
both contain frame 1 — the candidate advances by 1 on success, not by
`count`, and the returned runs are not pairwise disjoint. -/
theorem allocateFrame_count2_runs_overlap :
    (allocateFrame 5 allocOneArea 2).map Prod.fst = some (some ⟨0⟩) ∧
    ((allocateFrame 5 allocOneArea 2).bind fun p =>
        allocateFrame 5 p.2 2).map Prod.fst = some (some ⟨1⟩) ∧
    (0 ≤ 1 ∧ 1 ≤ 0 + (2 - 1)) ∧ (1 ≤ 1 ∧ 1 ≤ 1 + (2 - 1)) := by
  exact ⟨rfl, rfl, by decide, by decide⟩

/-- C2 (evaluation at the failing input): on `allocTinyArea` (a single area
holding only frame 0) a request for `count = 2` never terminates: the
area-switch branch calls `choose_next_area`, which re-selects the very same
area (its filter only demands `last_frame ≥ candidate`, not that the whole
run fits) and leaves the state unchanged, so the self-recursion loops
forever and no amount of fuel produces a result. -/
theorem allocateFrame_count2_diverges (fuel : Nat) :
    allocateFrame fuel allocTinyArea 2 = none := by
  induction fuel with
  | zero => rfl
  | succ n ih =>
      have hstep : allocateFrame (n + 1) allocTinyArea 2 =
          allocateFrame n allocTinyArea 2 := by
        have hfix : chooseNextArea allocTinyArea = allocTinyArea := by decide
        show allocateFrame n (chooseNextArea allocTinyArea) 2 =
          allocateFrame n allocTinyArea 2
        rw [hfix]
      rw [hstep]; exact ih

/-- C3 (evaluation at the failing input): on `allocMbArea` (multiboot
structure on frame 5 exactly), four single-frame allocations move the
candidate to frame 4; the next call with `count = 3` then succeeds and
returns start frame 4, i.e. the run {4,5,6}, which contains the reserved
multiboot frame 5: the multiboot check only tests whether the run's start
or end lies inside the reserved range and misses runs strictly containing
it. -/
theorem allocateFrame_run_contains_multiboot :
    ((((allocateFrame 9 allocMbArea 1).bind fun p =>
        allocateFrame 9 p.2 1).bind fun p =>
        allocateFrame 9 p.2 1).bind fun p =>
        allocateFrame 9 p.2 1).bind (fun p => allocateFrame 9 p.2 3) =
      some (some ⟨4⟩,
        { allocMbArea with next_free_frame := ⟨5⟩ }) ∧
    allocMbArea.multiboot_start.number = 5 ∧
    allocMbArea.multiboot_end.number = 5 ∧
    4 ≤ 5 ∧ 5 ≤ 4 + (3 - 1) := by
  exact ⟨by decide, by decide, by decide, by decide, by decide⟩

/-- C7: the candidate frame `next_free_frame` never decreases: the
constructor only raises it from frame 0, and every `allocate_frame` call
that finishes leaves it at or above its previous value; a successful call
returns a start frame between the old and the new candidate, so the start
frames of successive successful allocations are strictly increasing. -/
theorem allocator_candidate_monotone :
    (∀ ks ke ms me areas,
      (Frame.containing_address 0).number ≤
        (AreaFrameAllocator.new ks ke ms me areas).next_free_frame.number) ∧
    (∀ fuel s count r t, allocateFrame fuel s count = some (r, t) →
      s.next_free_frame.number ≤ t.next_free_frame.number) ∧
    (∀ fuel s count f t, allocateFrame fuel s count = some (some f, t) →
      s.next_free_frame.number ≤ f.number ∧
      f.number < t.next_free_frame.number) ∧
    (∀ fuel1 fuel2 s count1 count2 f1 t1 f2 t2,
      allocateFrame fuel1 s count1 = some (some f1, t1) →
      allocateFrame fuel2 t1 count2 = some (some f2, t2) →
      f1.number < f2.number) := by
  refine ⟨?_, ?_, ?_, ?_⟩
  · intro ks ke ms me areas
    unfold AreaFrameAllocator.new
    exact chooseNextArea_next_mono
      ⟨Frame.containing_address 0, none, areas, Frame.containing_address ks,
        Frame.containing_address ke, Frame.containing_address ms,
        Frame.containing_address me⟩
  · intro fuel s count r t h
    exact (allocateFrame_mono fuel s count r t h).1
  · intro fuel s count f t h
    exact (allocateFrame_mono fuel s count (some f) t h).2 f rfl
  · intro fuel1 fuel2 s count1 count2 f1 t1 f2 t2 h1 h2
    have hb1 := (allocateFrame_mono fuel1 s count1 (some f1) t1 h1).2 f1 rfl
    have hb2 := (allocateFrame_mono fuel2 t1 count2 (some f2) t2 h2).2 f2 rfl
    omega

/-- Witness for C7: on `allocOneArea`, a concrete single-frame allocation
returns start frame 0 with the candidate moved to 1. -/
theorem allocator_candidate_monotone_witness :
    allocOneArea.next_free_frame.number ≤ (⟨0⟩ : Frame).number ∧
    (⟨0⟩ : Frame).number <
      ({ allocOneArea with next_free_frame := ⟨1⟩ } :
        AreaFrameAllocator).next_free_frame.number :=
  allocator_candidate_monotone.2.2.1 5 allocOneArea 1 ⟨0⟩
    { allocOneArea with next_free_frame := ⟨1⟩ } (by decide)

end LambdaOS

namespace LambdaOS

/-- Virtual page, identified by its index (paging/mod.rs, lines 20-23). -/
structure Page where
  number : Nat
deriving DecidableEq, Repr

/-- `Page::containing_address` (paging/mod.rs, lines 27-36): the
`assert!` demands the address lie in one of the two canonical halves;
its failure (a panic) is modelled as `none`. Addresses are `usize`, so
callers live below `2^64`. -/
def Page.containing_address (address : Nat) : Option Page :=
  if address < 0x0000800000000000 ∨ 0xffff800000000000 ≤ address then
    some ⟨address / PAGE_SIZE⟩
  else none

/-- `Page::start_address` (paging/mod.rs, lines 39-41). -/
def Page.start_address (p : Page) : Nat :=
  p.number * PAGE_SIZE

/-- C8: for every virtual address in one of the two canonical halves, the
page returned by `Page::containing_address` contains it:
`start_address ≤ address < start_address + 4096`. -/
theorem page_containing_address_contains (address : Nat)
    (h : address < 0x0000800000000000 ∨ 0xffff800000000000 ≤ address) :
    ∃ p, Page.containing_address address = some p ∧
      p.start_address ≤ address ∧ address < p.start_address + PAGE_SIZE := by
  refine ⟨⟨address / PAGE_SIZE⟩, ?_, ?_, ?_⟩
  · unfold Page.containing_address
    rw [if_pos h]
  · exact Nat.div_mul_le_self address PAGE_SIZE
  · unfold Page.start_address
    dsimp only
    simp only [PAGE_SIZE]
    omega

/-- Witness for C8 at the concrete canonical address `0x1234`. -/
theorem page_containing_address_contains_witness :
    (0x1234 < 0x0000800000000000 ∨ 0xffff800000000000 ≤ 0x1234) ∧
    ∃ p, Page.containing_address 0x1234 = some p ∧
      p.start_address ≤ 0x1234 ∧ 0x1234 < p.start_address + PAGE_SIZE :=
  ⟨Or.inl (by norm_num),
    page_containing_address_contains 0x1234 (Or.inl (by norm_num))⟩

/-- C9: `Page::containing_address` fails (panicking assertion) for exactly
the addresses outside the two canonical halves: for every `usize` address,
it returns `none` precisely when
`0x0000_8000_0000_0000 ≤ address < 0xffff_8000_0000_0000`. -/
theorem page_containing_address_canonical_iff (address : Nat)
    (h : address < 2 ^ 64) :
    Page.containing_address address = none ↔
      0x0000800000000000 ≤ address ∧ address < 0xffff800000000000 := by
  unfold Page.containing_address
  split_ifs with hc
  · simp only [reduceCtorEq, false_iff]
    omega
  · simp only [true_iff]
    omega

/-- Witness for C9 at the first non-canonical address
`0x0000_8000_0000_0000`. -/
theorem page_containing_address_canonical_iff_witness :
    0x0000800000000000 < 2 ^ 64 ∧
    (Page.containing_address 0x0000800000000000 = none ↔
      0x0000800000000000 ≤ 0x0000800000000000 ∧
        0x0000800000000000 < 0xffff800000000000) :=
  ⟨by norm_num,
    page_containing_address_canonical_iff 0x0000800000000000 (by norm_num)⟩

end LambdaOS

namespace LambdaOS

/-- Modelled from the spec: `entry.rs` is not under `src/`; the data model
describes an entry as a packed 64-bit value of flag bits plus a frame
number. Only the three flags the visible sources use are modelled. -/
structure EntryFlags where
  present : Bool
  writable : Bool
  huge : Bool
deriving DecidableEq, Repr

/-- Page-table entry: flag bits plus the frame number they qualify.
Modelled from the spec: unused entries carry no flags, and `PRESENT` must
be set before the frame field is meaningful. -/
structure Entry where
  flags : EntryFlags
  frame : Nat
deriving DecidableEq, Repr

/-- Modelled from the spec: `Entry::set_unused` clears the entry
("unused entries carry no flags"). -/
def Entry.unused : Entry :=
  ⟨⟨false, false, false⟩, 0⟩

/-- The flag combination `PRESENT | WRITABLE` used throughout the paging
code. -/
def presentWritableFlags : EntryFlags :=
  ⟨true, true, false⟩

/-- Contents of one 512-entry page table, as a map from entry index
(0-511) to entry. -/
def PTable : Type :=
  Nat → Entry

/-- `Table::zero` (table.rs, lines 21-25): every entry set unused. -/
def zeroTable : PTable :=
  fun _ => Entry.unused

/-- Overwrite one entry of a table (`table[i].set(...)`). -/
def setEntry (t : PTable) (i : Nat) (e : Entry) : PTable :=
  fun j => if j = i then e else t j

/-- State seen by `Table::next_table_create`: the parent table plus the
child tables, addressed by the frame number their entry stores (the
source reaches them through the recursive virtual mapping; under the
recursive invariant that address resolves to the entry's frame). -/
structure TCState where
  table : PTable
  heap : Nat → PTable

/-- `Table::next_table` / `next_table_address` presence test (table.rs,
lines 34-43): a child table exists at `index` iff the entry is `PRESENT`
and not `HUGE_PAGE`. -/
def nextTablePresent (t : PTable) (i : Nat) : Bool :=
  (t i).flags.present && !(t i).flags.huge

/-- `Table::next_table_create` (table.rs, lines 61-79). The allocator is
abstracted as the `Option` result of its `allocate_frame(1)` call. `none`
models a panic: either the huge-page `assert!` (line 70) or the
out-of-frames `expect` (line 74). On the fresh path the new entry is set
`PRESENT | WRITABLE` and the new child is zeroed; the returned child is the
frame the entry now stores. -/
def nextTableCreate (st : TCState) (i : Nat) (alloc : Option Nat) :
    Option (TCState × Nat) :=
  if nextTablePresent st.table i then
    some (st, (st.table i).frame)
  else if (st.table i).flags.huge then
    none
  else
    match alloc with
    | none => none
    | some fr =>
        some (⟨setEntry st.table i ⟨presentWritableFlags, fr⟩,
          fun g => if g = fr then zeroTable else st.heap g⟩, fr)

/-- Restatement of claim C6's wording, to be compared with
`nextTableCreate`: panic exactly when the entry carries the huge-page
flag; otherwise return the existing child if one is present, and
allocate-install-zero if not. -/
def nextTableCreateSpec (st : TCState) (i : Nat) (alloc : Option Nat) :
    Option (TCState × Nat) :=
  if (st.table i).flags.huge then
    none
  else if (st.table i).flags.present then
    some (st, (st.table i).frame)
  else
    match alloc with
    | none => none
    | some fr =>
        some (⟨setEntry st.table i ⟨presentWritableFlags, fr⟩,
          fun g => if g = fr then zeroTable else st.heap g⟩, fr)

/-- C6: with a non-exhausted allocator, `next_table_create` panics exactly
when the entry at `index` carries the `HUGE_PAGE` flag; otherwise, when no
child is present it allocates one frame, installs it as
`PRESENT | WRITABLE`, zeroes the new child table (touching nothing else),
and in every non-panicking case the child at `index` is present
afterwards. -/
theorem nextTableCreate_behaviour (st : TCState) (i fr : Nat) :
    nextTableCreate st i (some fr) = nextTableCreateSpec st i (some fr) ∧
    ((st.table i).flags.huge = true →
      nextTableCreate st i (some fr) = none) ∧
    ((st.table i).flags.huge = false → (st.table i).flags.present = false →
      ∃ st2, nextTableCreate st i (some fr) = some (st2, fr) ∧
        st2.table i = ⟨presentWritableFlags, fr⟩ ∧
        (∀ j, st2.heap fr j = Entry.unused) ∧
        (∀ k, k ≠ i → st2.table k = st.table k) ∧
        (∀ g, g ≠ fr → st2.heap g = st.heap g)) ∧
    (∀ st2 c, nextTableCreate st i (some fr) = some (st2, c) →
      nextTablePresent st2.table i = true) := by
  cases hh : (st.table i).flags.huge with
  | true =>
      have hnp : nextTablePresent st.table i = false := by
        unfold nextTablePresent; rw [hh]; simp
      refine ⟨?_, fun _ => ?_, fun hcontra _ => by simp [hh] at hcontra, ?_⟩
      · unfold nextTableCreate nextTableCreateSpec
        rw [hnp, hh]; simp
      · unfold nextTableCreate
        rw [hnp, hh]; simp
      · intro st2 c habs
        unfold nextTableCreate at habs
        rw [hnp, hh] at habs
        simp at habs
  | false =>
      cases hp : (st.table i).flags.present with
      | true =>
          have hnp : nextTablePresent st.table i = true := by
            unfold nextTablePresent; rw [hh, hp]; simp
          refine ⟨?_, fun hcontra => by simp [hh] at hcontra,
            fun _ hcontra => by simp [hp] at hcontra, ?_⟩
          · unfold nextTableCreate nextTableCreateSpec
            rw [hnp, hh, hp]; simp
          · intro st2 c heq
            unfold nextTableCreate at heq
            rw [hnp] at heq
            simp only [if_true, Option.some.injEq, Prod.mk.injEq] at heq
            rw [← heq.1]
            exact hnp
      | false =>
          have hnp : nextTablePresent st.table i = false := by
            unfold nextTablePresent; rw [hh, hp]; simp
          have heval : nextTableCreate st i (some fr) =
              some (⟨setEntry st.table i ⟨presentWritableFlags, fr⟩,
                fun g => if g = fr then zeroTable else st.heap g⟩, fr) := by
            unfold nextTableCreate
            rw [hnp, hh]; simp
          refine ⟨?_, fun hcontra => by simp [hh] at hcontra,
            fun _ _ => ?_, ?_⟩
          · unfold nextTableCreate nextTableCreateSpec
            rw [hnp, hh, hp]; simp
          · refine ⟨_, heval, ?_, ?_, ?_, ?_⟩
            · simp [setEntry]
            · intro j; simp [zeroTable]
            · intro k hk; simp [setEntry, hk]
            · intro g hg; simp [hg]
          · intro st2 c heq
            rw [heval] at heq
            simp only [Option.some.injEq, Prod.mk.injEq] at heq
            rw [← heq.1]
            unfold nextTablePresent
            simp [setEntry, presentWritableFlags]

/-- Empty parent table with empty children, used as concrete input for the
C6 witness. -/
def tcEmpty : TCState :=
  ⟨zeroTable, fun _ => zeroTable⟩

/-- Witness for C6: on an all-unused parent table, creating the child at
index 3 from fresh frame 7 agrees with the claim's description and leaves
the child present. -/
theorem nextTableCreate_behaviour_witness :
    nextTableCreate tcEmpty 3 (some 7) = nextTableCreateSpec tcEmpty 3 (some 7) ∧
    (∃ st2, nextTableCreate tcEmpty 3 (some 7) = some (st2, 7) ∧
      st2.table 3 = ⟨presentWritableFlags, 7⟩ ∧
      (∀ j, st2.heap 7 j = Entry.unused) ∧
      (∀ k, k ≠ 3 → st2.table k = tcEmpty.table k) ∧
      (∀ g, g ≠ 7 → st2.heap g = tcEmpty.heap g)) :=
  ⟨(nextTableCreate_behaviour tcEmpty 3 7).1,
    (nextTableCreate_behaviour tcEmpty 3 7).2.2.1 rfl rfl⟩

end LambdaOS

namespace LambdaOS

/-- Physical state seen by the address-space operations in paging/mod.rs:
the frame currently installed in the page-table base register (`cr3`), the
contents of physical memory viewed as page tables (frame number → table),
and which frame the temporary page currently maps, if any. The temporary
page itself is modelled from the spec (`temporary_page.rs` is not under
`src/`): `map_table_frame` gives addressability to a frame and `unmap`
revokes it. -/
structure PagingState where
  cr3 : Nat
  heap : Nat → PTable
  tempMapped : Option Nat

/-- Modelled from the spec: `TemporaryPage::map_table_frame(frame, ...)`
maps the given frame at the temporary page's fixed virtual page and hands
back a reference to it as a level-4 table. -/
def mapTableFrame (s : PagingState) (frame : Nat) : PagingState :=
  { s with tempMapped := some frame }

/-- Modelled from the spec: `TemporaryPage::unmap` removes the temporary
mapping. -/
def tempUnmap (s : PagingState) : PagingState :=
  { s with tempMapped := none }

/-- `InactivePageTable::new(frame, active_table, temporary_page)`
(paging/mod.rs, lines 185-198): reach `frame` via the temporary page, zero
it (`Table::zero`), set its entry 511 to `frame` itself with
`PRESENT | WRITABLE`, then unmap the temporary page. The handle's
`p4_frame` is returned alongside the state. -/
def inactiveNew (s : PagingState) (frame : Nat) : PagingState × Nat :=
  let s1 := mapTableFrame s frame
  let t := setEntry zeroTable 511 ⟨presentWritableFlags, frame⟩
  let s2 := { s1 with heap := fun g => if g = frame then t else s1.heap g }
  (tempUnmap s2, frame)

/-- C5: after `InactivePageTable::new` returns, the level-4 table stored in
`frame` has entries 0-510 unused, entry 511 pointing at `frame` itself with
`PRESENT | WRITABLE`, the temporary page is unmapped, and no other frame
was written. -/
theorem inactiveNew_table_shape (s : PagingState) (frame : Nat) :
    (∀ i, i ≤ 510 → (inactiveNew s frame).1.heap frame i = Entry.unused) ∧
    (inactiveNew s frame).1.heap frame 511 = ⟨presentWritableFlags, frame⟩ ∧
    (inactiveNew s frame).1.tempMapped = none ∧
    (inactiveNew s frame).2 = frame ∧
    (∀ g, g ≠ frame → (inactiveNew s frame).1.heap g = s.heap g) := by
  refine ⟨?_, ?_, rfl, rfl, ?_⟩
  · intro i hi
    have hne : i ≠ 511 := by omega
    simp [inactiveNew, mapTableFrame, tempUnmap, setEntry, zeroTable, hne]
  · simp [inactiveNew, mapTableFrame, tempUnmap, setEntry]
  · intro g hg
    simp [inactiveNew, mapTableFrame, tempUnmap, hg]

/-- All-unused physical memory with frame 1 active, used as concrete input
for the C5 witness. -/
def pagingEmpty : PagingState :=
  ⟨1, fun _ => zeroTable, none⟩

/-- Witness for C5 at the concrete state `pagingEmpty`, frame 7. -/
theorem inactiveNew_table_shape_witness :
    (inactiveNew pagingEmpty 7).1.heap 7 5 = Entry.unused ∧
    (inactiveNew pagingEmpty 7).1.heap 7 511 = ⟨presentWritableFlags, 7⟩ ∧
    (inactiveNew pagingEmpty 7).1.tempMapped = none ∧
    (inactiveNew pagingEmpty 7).2 = 7 ∧
    (inactiveNew pagingEmpty 7).1.heap 9 = pagingEmpty.heap 9 :=
  ⟨(inactiveNew_table_shape pagingEmpty 7).1 5 (by norm_num),
    (inactiveNew_table_shape pagingEmpty 7).2.1,
    (inactiveNew_table_shape pagingEmpty 7).2.2.1,
    (inactiveNew_table_shape pagingEmpty 7).2.2.2.1,
    (inactiveNew_table_shape pagingEmpty 7).2.2.2.2 9 (by norm_num)⟩

/-- `Page::p4_index` (paging/mod.rs, line 43-45) applied to a page number. -/
def p4Index (n : Nat) : Nat :=
  n / 2 ^ 27 % 512

/-- `Page::p3_index` applied to a page number. -/
def p3Index (n : Nat) : Nat :=
  n / 2 ^ 18 % 512

/-- `Page::p2_index` applied to a page number. -/
def p2Index (n : Nat) : Nat :=
  n / 2 ^ 9 % 512

/-- `Page::p1_index` applied to a page number. -/
def p1Index (n : Nat) : Nat :=
  n % 512

/-- Child frame reachable through an entry: present and not huge
(`next_table_address`, table.rs lines 34-43). -/
def entryChild (e : Entry) : Option Nat :=
  if e.flags.present = true ∧ e.flags.huge = false then some e.frame
  else none

/-- Modelled from the spec: `Mapper::translate` (mapper.rs is not under
`src/`) walks the four levels from the root table through `PRESENT`,
non-huge entries (§4.2-4.3 of the spec; huge pages are unsupported) and
combines the level-1 frame with the in-page offset. -/
def translate (heap : Nat → PTable) (root va : Nat) : Option Nat :=
  match entryChild (heap root (p4Index (va / PAGE_SIZE))) with
  | none => none
  | some f3 =>
    match entryChild (heap f3 (p3Index (va / PAGE_SIZE))) with
    | none => none
    | some f2 =>
      match entryChild (heap f2 (p2Index (va / PAGE_SIZE))) with
      | none => none
      | some f1 =>
        if (heap f1 (p1Index (va / PAGE_SIZE))).flags.present = true then
          some ((heap f1 (p1Index (va / PAGE_SIZE))).frame * PAGE_SIZE +
            va % PAGE_SIZE)
        else none

/-- Frames dereferenced by `translate heap root va`, outermost first. -/
def walkFrames (heap : Nat → PTable) (root va : Nat) : List Nat :=
  root ::
    match entryChild (heap root (p4Index (va / PAGE_SIZE))) with
    | none => []
    | some f3 =>
      f3 ::
        match entryChild (heap f3 (p3Index (va / PAGE_SIZE))) with
        | none => []
        | some f2 =>
          f2 ::
            match entryChild (heap f2 (p2Index (va / PAGE_SIZE))) with
            | none => []
            | some f1 => [f1]

/-- Two heaps agreeing on every frame the walk of `va` dereferences yield
the same translation for `va`. -/
theorem translate_agree (h1 h2 : Nat → PTable) (root va : Nat)
    (hag : ∀ g, g ∈ walkFrames h1 root va → h2 g = h1 g) :
    translate h2 root va = translate h1 root va := by
  have hroot : h2 root = h1 root := by
    refine hag root ?_
    unfold walkFrames
    exact List.mem_cons_self _ _
  unfold translate
  rw [hroot]
  cases h3 : entryChild (h1 root (p4Index (va / PAGE_SIZE))) with
  | none => rfl
  | some f3 =>
      dsimp only
      have hf3 : h2 f3 = h1 f3 := by
        refine hag f3 ?_
        unfold walkFrames
        rw [h3]
        simp
      rw [hf3]
      cases h4 : entryChild (h1 f3 (p3Index (va / PAGE_SIZE))) with
      | none => rfl
      | some f2 =>
          dsimp only
          have hf2 : h2 f2 = h1 f2 := by
            refine hag f2 ?_
            unfold walkFrames
            rw [h3]
            dsimp only
            rw [h4]
            simp
          rw [hf2]
          cases h5 : entryChild (h1 f2 (p2Index (va / PAGE_SIZE))) with
          | none => rfl
          | some f1 =>
              dsimp only
              have hf1 : h2 f1 = h1 f1 := by
                refine hag f1 ?_
                unfold walkFrames
                rw [h3]
                dsimp only
                rw [h4]
                dsimp only
                rw [h5]
                simp
              rw [hf1]

/-- Heap visible while `f` runs inside `ActivePageTable::with`: entry 511
of the active level-4 table has been repointed at the inactive space's
level-4 frame (`self.p4_mut()[511].set(...)`, paging/mod.rs lines
147-150). -/
def withMidHeap (s : PagingState) (inactiveFrame : Nat) : Nat → PTable :=
  fun g =>
    if g = s.cr3 then
      setEntry (s.heap s.cr3) 511 ⟨presentWritableFlags, inactiveFrame⟩
    else s.heap g

/-- `ActivePageTable::with(table, temporary_page, f)` (paging/mod.rs,
lines 128-162): save the active level-4 frame from `cr3`, map it at the
temporary page, repoint entry 511 of the active table at the inactive
frame, run `f` (modelled as a heap transformer, since all its mapper
operations go through the redirected recursive slot), write the saved
frame back into entry 511 with `PRESENT | WRITABLE` through the
temporary-page reference, and unmap the temporary page. Translation-cache
flushes have no memory effect and are omitted. -/
def withOp (s : PagingState) (inactiveFrame : Nat)
    (hf : (Nat → PTable) → (Nat → PTable)) : PagingState :=
  let backup := s.cr3
  let s1 := mapTableFrame s backup
  let s2 := { s1 with heap := withMidHeap s inactiveFrame }
  let s3 := { s2 with heap := hf s2.heap }
  let restored : Nat → PTable := fun g =>
    if g = backup then setEntry (s3.heap backup) 511 ⟨presentWritableFlags, backup⟩
    else s3.heap g
  let s4 := { s3 with heap := restored }
  tempUnmap s4

/-- C4: `ActivePageTable::with` exactly restores the active address space.
Hypotheses: the standing recursive invariant (the active table's entry 511
self-points with `PRESENT | WRITABLE`), and `f` — whose mapper operations
all go through the redirected recursive slot — touches only frames in `T`,
a set not containing the active level-4 frame. Conclusions: `cr3` and the
whole active level-4 table (entry 511 included) are as before, the
temporary page is unmapped, frames untouched by `f` are unchanged, entry
511 pointed at the inactive frame while `f` ran, and every translation
whose walk only dereferences frames untouched by `f` is unchanged. -/
theorem activeWith_restores_exactly (s : PagingState) (inactiveFrame : Nat)
    (hf : (Nat → PTable) → (Nat → PTable)) (T : Nat → Prop)
    (hInv : s.heap s.cr3 511 = ⟨presentWritableFlags, s.cr3⟩)
    (hT : ∀ h g, ¬ T g → hf h g = h g)
    (hcr3 : ¬ T s.cr3) :
    (withOp s inactiveFrame hf).cr3 = s.cr3 ∧
    (withOp s inactiveFrame hf).tempMapped = none ∧
    withMidHeap s inactiveFrame s.cr3 511 =
      ⟨presentWritableFlags, inactiveFrame⟩ ∧
    (withOp s inactiveFrame hf).heap s.cr3 = s.heap s.cr3 ∧
    (∀ g, ¬ T g → (withOp s inactiveFrame hf).heap g = s.heap g) ∧
    (∀ va, (∀ g, g ∈ walkFrames s.heap s.cr3 va → ¬ T g) →
      translate (withOp s inactiveFrame hf).heap
        (withOp s inactiveFrame hf).cr3 va = translate s.heap s.cr3 va) := by
  have hmid : withMidHeap s inactiveFrame s.cr3 =
      setEntry (s.heap s.cr3) 511 ⟨presentWritableFlags, inactiveFrame⟩ := by
    unfold withMidHeap
    simp
  have hrestore : (withOp s inactiveFrame hf).heap s.cr3 = s.heap s.cr3 := by
    unfold withOp tempUnmap mapTableFrame
    dsimp only
    rw [if_pos rfl, hT _ _ hcr3, hmid]
    funext j
    unfold setEntry
    by_cases hj : j = 511
    · rw [if_pos hj, hj, hInv]
    · simp [hj]
  have huntouched : ∀ g, ¬ T g →
      (withOp s inactiveFrame hf).heap g = s.heap g := by
    intro g hg
    by_cases hgc : g = s.cr3
    · rw [hgc]; exact hrestore
    · unfold withOp tempUnmap mapTableFrame
      dsimp only
      rw [if_neg hgc, hT _ _ hg]
      unfold withMidHeap
      rw [if_neg hgc]
  have hcr : (withOp s inactiveFrame hf).cr3 = s.cr3 := by
    simp [withOp, tempUnmap, mapTableFrame]
  have htemp : (withOp s inactiveFrame hf).tempMapped = none := by
    simp [withOp, tempUnmap, mapTableFrame]
  refine ⟨hcr, htemp, ?_, hrestore, huntouched, ?_⟩
  · rw [hmid]
    unfold setEntry
    simp
  · intro va hwalk
    rw [hcr]
    exact translate_agree s.heap (withOp s inactiveFrame hf).heap s.cr3 va
      (fun g hg => huntouched g (hwalk g hg))

/-- Concrete state for the C4 witness: frame 1 is the active level-4 table
and self-points at entry 511; everything else is unused. -/
def pagingRecursive : PagingState where
  cr3 := 1
  heap := fun g =>
    if g = 1 then setEntry zeroTable 511 ⟨presentWritableFlags, 1⟩
    else zeroTable
  tempMapped := none

/-- Witness for C4: running `with` on `pagingRecursive` toward inactive
frame 2 with an `f` that touches nothing restores the active table exactly
and preserves the translation of address 0. -/
theorem activeWith_restores_exactly_witness :
    (withOp pagingRecursive 2 id).cr3 = pagingRecursive.cr3 ∧
    (withOp pagingRecursive 2 id).tempMapped = none ∧
    withMidHeap pagingRecursive 2 pagingRecursive.cr3 511 =
      ⟨presentWritableFlags, 2⟩ ∧
    (withOp pagingRecursive 2 id).heap pagingRecursive.cr3 =
      pagingRecursive.heap pagingRecursive.cr3 ∧
    translate (withOp pagingRecursive 2 id).heap
      (withOp pagingRecursive 2 id).cr3 0 =
      translate pagingRecursive.heap pagingRecursive.cr3 0 := by
  have h := activeWith_restores_exactly pagingRecursive 2 id
    (fun _ => False) (by simp [pagingRecursive, setEntry]) (fun h g hg => rfl)
    (fun hfalse => hfalse)
  exact ⟨h.1, h.2.1, h.2.2.1, h.2.2.2.1,
    h.2.2.2.2.2 0 (fun g hg hfalse => hfalse)⟩

end LambdaOS
